import Mathlib

/-!
Shallow embedding of the AveonHR payslip pipeline
(`payslip/utils.py` and `payslip/services/payslip_service.py`).

Modelling conventions:
* A spreadsheet cell is a `Value`: the Python `None` object, a float NaN,
  a string, an int, or a finite float.  Finite floats are modelled as
  rationals, so arithmetic is exact; the claims under study are about
  fallback/selection structure and small decimal literals, not about
  binary rounding.
* Python's `float(str)` is modelled by `parseFloat` for decimal numeral
  syntax (optional sign, digits, optional fraction, optional exponent,
  surrounding whitespace).  The exotic inputs Python additionally accepts
  ("inf", "nan", underscore separators) are outside every claim.
* `str.strip()` is modelled with `Char.isWhitespace`, which agrees with
  Python on the ASCII whitespace appearing in header/cell data.
* Python list indexing `xs[i]` raises `IndexError` out of range; it is
  modelled with `List.get?`, and functions that can raise return `Option`.
-/

namespace AveonHR

inductive Value where
  | none
  | nan
  | str (s : String)
  | int (n : ℤ)
  | float (q : ℚ)
deriving DecidableEq, Repr

/-- Remove the maximal trailing run of characters satisfying `p`. -/
def dropTrailing (p : Char → Bool) : List Char → List Char
  | [] => []
  | c :: rest =>
    match dropTrailing p rest with
    | [] => if p c then [] else [c]
    | r => c :: r

/-- Python `str.strip(chars)`: remove leading and trailing characters
satisfying `p`. -/
def stripEnds (p : Char → Bool) (l : List Char) : List Char :=
  dropTrailing p (l.dropWhile p)

/-- Python `str.strip()` (whitespace, as a `String` transformer). -/
def pyStrip (s : String) : String :=
  String.mk (stripEnds Char.isWhitespace s.data)

def digitsVal (l : List Char) : ℕ :=
  l.foldl (fun acc c => 10 * acc + (c.toNat - 48)) 0

/-- Exponent suffix of a float literal: empty, or `e`/`E`, optional sign,
then a nonempty digit string. -/
def parseExpPart (base : ℚ) : List Char → Option ℚ
  | [] => some base
  | c :: r =>
    if c = 'e' ∨ c = 'E' then
      let signed : Bool × List Char :=
        match r with
        | '+' :: d => (false, d)
        | '-' :: d => (true, d)
        | d => (false, d)
      let d := signed.2
      if d ≠ [] ∧ d.all Char.isDigit then
        some (if signed.1 then base / 10 ^ digitsVal d else base * 10 ^ digitsVal d)
      else Option.none
    else Option.none

/-- Unsigned decimal float literal: `digits [. digits] [exp]` or
`. digits [exp]`. -/
def parseUnsigned (l : List Char) : Option ℚ :=
  let intPart := l.takeWhile Char.isDigit
  let rest := l.dropWhile Char.isDigit
  match rest with
  | '.' :: rest2 =>
    let fracPart := rest2.takeWhile Char.isDigit
    let rest3 := rest2.dropWhile Char.isDigit
    if intPart = [] ∧ fracPart = [] then Option.none
    else
      parseExpPart ((digitsVal intPart : ℚ) + (digitsVal fracPart : ℚ) / 10 ^ fracPart.length)
        rest3
  | _ =>
    if intPart = [] then Option.none
    else parseExpPart (digitsVal intPart : ℚ) rest

/-- Modelled Python `float(s)` on decimal numeral strings (see module
comment for scope). `Option.none` is `ValueError`. -/
def parseFloat (s : String) : Option ℚ :=
  match stripEnds Char.isWhitespace s.data with
  | '+' :: r => parseUnsigned r
  | '-' :: r => (parseUnsigned r).map (fun q => -q)
  | r => parseUnsigned r

/-- `payslip/utils.py::safe_number`.  `None` and float NaN map to `0.0`;
blank or `"-"` strings (after stripping) map to `0.0`; otherwise
`float(value)` with `TypeError`/`ValueError` caught to `0.0`. -/
def safe_number : Value → ℚ
  | .none => 0
  | .nan => 0
  | .int n => (n : ℚ)
  | .float q => q
  | .str s =>
    if pyStrip s = "" ∨ pyStrip s = "-" then 0
    else (parseFloat s).getD 0

/-- `payslip/utils.py::_ONES`. -/
def _ONES : List String :=
  ["Zero", "One", "Two", "Three", "Four", "Five", "Six", "Seven", "Eight",
   "Nine", "Ten", "Eleven", "Twelve", "Thirteen", "Fourteen", "Fifteen",
   "Sixteen", "Seventeen", "Eighteen", "Nineteen"]

/-- `payslip/utils.py::_TENS`. -/
def _TENS : List String :=
  ["", "", "Twenty", "Thirty", "Forty", "Fifty", "Sixty", "Seventy",
   "Eighty", "Ninety"]

/-- `payslip/utils.py::_convert_hundreds`.  The Python body indexes
`_ONES[hundreds]` without a bound check; an out-of-range index raises
`IndexError`, modelled as `Option.none`. -/
def _convert_hundreds (number : ℕ) : Option String :=
  let hundreds := number / 100
  let remainder := number % 100
  let hundredsWords : Option (List String) :=
    if hundreds = 0 then some []
    else (_ONES.get? hundreds).map (fun w => [w ++ " Hundred"])
  let remainderWords : Option (List String) :=
    if remainder = 0 then some []
    else if remainder < 20 then (_ONES.get? remainder).map (fun w => [w])
    else
      let tens := remainder / 10
      let ones := remainder % 10
      if ones = 0 then (_TENS.get? tens).map (fun w => [w])
      else
        match _TENS.get? tens, _ONES.get? ones with
        | some tw, some ow => some [tw ++ " " ++ ow]
        | _, _ => Option.none
  match hundredsWords, remainderWords with
  | some a, some b => some (String.intercalate " " (a ++ b))
  | _, _ => Option.none

/-- One group of `number_to_words`: skipped when zero, otherwise rendered
by `_convert_hundreds` with the scale word appended. -/
def groupPart (group : ℕ) (suffix : String) : Option (List String) :=
  if group = 0 then some []
  else (_convert_hundreds group).map (fun w => [w ++ suffix])

/-- `payslip/utils.py::number_to_words`, after the
`int(round(safe_number(value)))` coercion — which on a non-negative
integer input (the claims' domain) is the identity.  Splits into crores /
lakhs / thousands / 0-999 remainder and joins the nonzero groups with
single spaces; an `IndexError` from `_convert_hundreds` is `Option.none`. -/
def number_to_words (amount : ℕ) : Option String :=
  if amount = 0 then some "Zero"
  else
    let crores := amount / 10000000
    let r1 := amount % 10000000
    let lakhs := r1 / 100000
    let r2 := r1 % 100000
    let thousands := r2 / 1000
    let hundreds := r2 % 1000
    match groupPart crores " Crore", groupPart lakhs " Lakh",
        groupPart thousands " Thousand",
        (if hundreds = 0 then some []
         else (_convert_hundreds hundreds).map (fun w => [w])) with
    | some a, some b, some c, some d =>
      some (String.intercalate " " (a ++ b ++ c ++ d))
    | _, _, _, _ => Option.none

/-- Lower-case letters and digits, the character class kept verbatim by
`_normalize_name`'s final `re.sub(r"[^a-z0-9]+", "_", ...)`. -/
def isAlnumLower (c : Char) : Bool :=
  (97 ≤ c.toNat && c.toNat ≤ 122) || (48 ≤ c.toNat && c.toNat ≤ 57)

/-- Collapse every maximal run of characters outside `[a-z0-9]` into a
single `'_'` (the effect of `re.sub(r"[^a-z0-9]+", "_", ...)`). -/
def collapse : List Char → List Char
  | [] => []
  | [c] => if isAlnumLower c then [c] else ['_']
  | c :: d :: rest =>
    if isAlnumLower c then c :: collapse (d :: rest)
    else if isAlnumLower d then '_' :: collapse (d :: rest)
    else collapse (d :: rest)

/-- No two adjacent characters are both outside `[a-z0-9]` — the shape
`collapse` guarantees, used to prove it idempotent on its own output. -/
def chainOk : List Char → Bool
  | [] => true
  | [_] => true
  | c :: d :: rest => (isAlnumLower c || isAlnumLower d) && chainOk (d :: rest)

/-- `payslip/utils.py::_normalize_name`: strip, lower-case, send `/` and
`#` to spaces, send `(` and `)` to spaces, collapse non-`[a-z0-9]` runs to
`'_'`, strip `'_'` at both ends. -/
def _normalize_name (s : String) : String :=
  let l0 := stripEnds Char.isWhitespace s.data
  let l1 := l0.map Char.toLower
  let l2 := l1.map (fun c => if c = '/' then ' ' else c)
  let l3 := l2.map (fun c => if c = '#' then ' ' else c)
  let l4 := l3.map (fun c => if c = '(' ∨ c = ')' then ' ' else c)
  String.mk (stripEnds (fun c => c = '_') (collapse l4))

/-- `payslip/utils.py::COLUMN_ALIASES`.  The Python values are `set`
literals, whose iteration order is unspecified; they are modelled as
lists in the literal order.  All aliases of one entry map to the same
canonical name and the normalized key sets of distinct entries are
disjoint (proved below), so the alias map is independent of that order. -/
def COLUMN_ALIASES : List (String × List String) :=
  [("employee_id",
    ["employee_id", "emp_id", "employeeid", "emp code", "employee code",
     "employee no", "employee number", "emp no"]),
   ("employee_name", ["employee_name", "employee name", "emp_name", "emp name"]),
   ("department", ["department", "dept"]),
   ("designation", ["designation", "role"]),
   ("gender", ["gender"]),
   ("joining_date", ["joining_date", "date_of_joining", "doj", "joining date"]),
   ("bank_name", ["bank_name", "bank"]),
   ("account_number",
    ["account_number", "account_no", "a/c", "a/c #", "ac no", "ac_no",
     "bank account no", "bank account number"]),
   ("ifsc_code", ["ifsc_code", "ifsc"]),
   ("pan_number", ["pan_number", "pan", "pan no", "pan number"]),
   ("pf_no", ["pf_no", "pf number", "pf no"]),
   ("pf_uan", ["pf_uan", "uan", "pf uan"]),
   ("location", ["location"]),
   ("effective_work_days", ["effective work days", "effective_work_days"]),
   ("month", ["month", "pay_month", "payslip_month", "payslip for the month of"]),
   ("total_working_days", ["total_working_days", "total working days"]),
   ("present_days", ["present_days", "present days"]),
   ("lop_days", ["lop_days", "lop days", "lwp", "loss of pay", "lop"]),
   ("pay_days", ["pay_days", "pay days", "paid_days", "pay days(26)"]),
   ("days_in_month", ["days_in_month", "days in month"]),
   ("basic", ["basic"]),
   ("da", ["da", "dearness allowance"]),
   ("hra", ["hra", "house rent allowance"]),
   ("transport_allowances", ["transport_allowances", "transport allowance", "ta"]),
   ("food_allowances", ["food_allowances", "food allowance"]),
   ("internet_allowances", ["internet_allowances", "internet allowance"]),
   ("other_allowances", ["other_allowances", "other allowance"]),
   ("salary_arrear_allowance",
    ["salary_arrear_allowance", "salary arrier / allowance", "salary arrear allowance"]),
   ("gross_salary", ["gross_salary", "gross salary"]),
   ("pf_employee", ["pf_employee", "pf employee", "provident fund"]),
   ("pf_employer", ["pf_employer", "pf employer"]),
   ("esi_employee", ["esi_employee", "esi employee"]),
   ("esi_employer", ["esi_employer", "esi employer"]),
   ("professional_tax", ["professional_tax", "professional tax"]),
   ("salary_advance", ["salary_advance", "salary advance"]),
   ("tds", ["tds"]),
   ("other_deduction", ["other_deduction", "other deduction"]),
   ("total_deductions", ["total_deductions", "total deductions"]),
   ("net_payable", ["net_payable", "net payable", "net pay"])]

/-- `payslip/utils.py::_build_alias_map`: for each entry, record the
normalized canonical name and every normalized alias, all pointing at the
canonical name.  Python dict insertion: a later binding of the same key
overwrites an earlier one, so lookups must scan the reversed list. -/
def _build_alias_map : List (String × String) :=
  COLUMN_ALIASES.foldl
    (fun acc p =>
      acc ++ ((_normalize_name p.1, p.1) :: p.2.map (fun a => (_normalize_name a, p.1))))
    []

def ALIAS_MAP : List (String × String) := _build_alias_map

/-- The normalized key set one alias-table entry contributes to the alias
map: the normalized canonical name plus every normalized alias. -/
def keyList (p : String × List String) : List String :=
  _normalize_name p.1 :: p.2.map _normalize_name

/-- First-match association lookup. -/
def assocFind : List (String × String) → String → Option String
  | [], _ => Option.none
  | (k, v) :: rest, key => if k = key then some v else assocFind rest key

/-- `ALIAS_MAP.get(key)`: Python dict lookup, i.e. the most recent
insertion wins, hence the reversal. -/
def aliasLookup (key : String) : Option String :=
  assocFind ALIAS_MAP.reverse key

/-- The per-header step of `payslip/utils.py::normalize_columns`:
`ALIAS_MAP.get(key, key)` applied to the normalized header. -/
def resolveHeader (h : String) : String :=
  let key := _normalize_name h
  (aliasLookup key).getD key

/-- `payslip/utils.py::normalize_columns` on the frame's column list. -/
def normalize_columns (cols : List String) : List String :=
  cols.map resolveHeader

/-- `payslip/utils.py::REQUIRED_COLUMNS`.  A Python `set` literal with
unspecified iteration order; modelled in the literal order.  Every use
below is order-insensitive (membership, emptiness, sorted display). -/
def REQUIRED_COLUMNS : List String := ["employee_name", "employee_id", "month"]

/-- A pandas frame abstracted to its column labels and cell rows. -/
structure Frame where
  headers : List String
  rows : List (List Value)
deriving DecidableEq, Repr

/-- `parse_salary_file` after the spreadsheet has been decoded to a
`Frame`: normalize the column labels. -/
def normalizeFrame (f : Frame) : Frame :=
  { f with headers := normalize_columns f.headers }

/-- `payslip/utils.py::validate_columns`:
`[col for col in REQUIRED_COLUMNS if col not in frame.columns]`. -/
def validate_columns (f : Frame) : List String :=
  REQUIRED_COLUMNS.filter (fun c => ¬ f.headers.contains c)

/-- One data row as a pandas `Series`: column label paired with cell. -/
def Row : Type := List (String × Value)

/-- `row.get(key)` with the default `None`: absent labels and stored
`None` cells are indistinguishable, as in Python. -/
def rowGet (row : Row) (k : String) : Value :=
  match assocFindV row k with | some v => v | Option.none => Value.none
where
  assocFindV : List (String × Value) → String → Option Value
    | [], _ => Option.none
    | (k', v) :: rest, key => if k' = key then some v else assocFindV rest key

/-- `row.get(key, default)`. -/
def rowGetD (row : Row) (k : String) (d : Value) : Value :=
  match rowGet.assocFindV row k with | some v => v | Option.none => d

/-- `key in row.index`. -/
def rowHas (row : Row) (k : String) : Bool :=
  (rowGet.assocFindV row k).isSome

/-- `payslip/utils.py::EARNING_COLUMNS`. -/
def EARNING_COLUMNS : List String :=
  ["basic", "da", "hra", "transport_allowances", "food_allowances",
   "internet_allowances", "other_allowances", "salary_arrear_allowance"]

/-- `payslip/utils.py::DEDUCTION_COLUMNS`. -/
def DEDUCTION_COLUMNS : List String :=
  ["pf_employee", "esi_employee", "professional_tax", "salary_advance",
   "tds", "other_deduction"]

/-- The skip condition of `payslip/utils.py::pick_value`'s loop:
`None`, float NaN, or a string that strips to blank. -/
def pickSkip : Value → Bool
  | .none => true
  | .nan => true
  | .str s => pyStrip s = ""
  | _ => false

/-- `payslip/utils.py::pick_value`: first candidate key whose value does
not hit the skip condition; `None` when all do. -/
def pick_value (row : Row) : List String → Value
  | [] => .none
  | k :: ks =>
    let v := rowGet row k
    if pickSkip v then pick_value row ks else v

/-- `build_payslip_pdf`, line 404: `sum(safe_number(row.get(col)) for col
in EARNING_COLUMNS)`. -/
def earnings_total (row : Row) : ℚ :=
  (EARNING_COLUMNS.map (fun c => safe_number (rowGet row c))).sum

/-- `build_payslip_pdf`, line 405. -/
def deductions_total (row : Row) : ℚ :=
  (DEDUCTION_COLUMNS.map (fun c => safe_number (rowGet row c))).sum

/-- `build_payslip_pdf`, line 407: `safe_number(row.get("gross_salary"))
or earnings_total` — Python `or` yields the right operand exactly when
the left one is `0.0`. -/
def gross_salary (row : Row) : ℚ :=
  let explicit := safe_number (rowGet row "gross_salary")
  if explicit ≠ 0 then explicit else earnings_total row

/-- `build_payslip_pdf`, line 408. -/
def total_deductions (row : Row) : ℚ :=
  let explicit := safe_number (rowGet row "total_deductions")
  if explicit ≠ 0 then explicit else deductions_total row

/-- `build_payslip_pdf`, line 409. -/
def net_total (row : Row) : ℚ :=
  let explicit := safe_number (rowGet row "net_payable")
  if explicit ≠ 0 then explicit else gross_salary row - total_deductions row

/-- The data content of one generated payslip document: the row it was
rendered from and the quantities `build_payslip_pdf` computes from it
(lines 344-346 and 404-409).  Layout, fonts and the words line are pure
presentation of these fields and are not part of the embedding. -/
structure PayslipDoc where
  row : Row
  effective_work_days : Value
  gross_salary : ℚ
  total_deductions : ℚ
  net_total : ℚ

/-- `payslip/utils.py::build_payslip_pdf`, restricted to its data
computations (the claims' subject); the company/logo arguments only feed
layout and are omitted. -/
def build_payslip_pdf (row : Row) : PayslipDoc :=
  { row := row
    effective_work_days :=
      pick_value row
        ["effective_work_days", "present_days", "pay_days", "total_working_days"]
    gross_salary := gross_salary row
    total_deductions := total_deductions row
    net_total := net_total row }

/-- Content of the primary artifact: one PDF, or a zip archive holding
its members in insertion order.  `zipfile.ZipFile.writestr` accepts
duplicate member names, so the member list is not deduplicated. -/
inductive BatchContent where
  | pdf (doc : PayslipDoc)
  | zip (members : List (String × PayslipDoc))

/-- `payslip/utils.py::build_zip`. -/
def build_zip (file_pairs : List (String × PayslipDoc)) : BatchContent :=
  BatchContent.zip file_pairs

/-- Python `str(value)` as used on the name/id cells when deriving
filenames.  Exact for strings, `None`, integers and integral floats; the
repr of a non-integral float is approximated (no claim evaluates it). -/
def pyStr : Value → String
  | .str s => s
  | .none => "None"
  | .nan => "nan"
  | .int n => toString n
  | .float q => if q.den = 1 then toString q.num ++ ".0" else toString q.num ++ "/" ++ toString q.den

/-- `str(...).strip().replace(" ", "_")` from `_build_payslip_files`; the
pattern is a single character, so the replacement is a character map. -/
def sanitizePart (s : String) : String :=
  String.mk ((pyStrip s).data.map (fun c => if c = ' ' then '_' else c))

/-- The filename for one row: `payslip_<name>_<id>.pdf`. -/
def payslipFilename (row : Row) : String :=
  "payslip_" ++ sanitizePart (pyStr (rowGetD row "employee_name" (.str "employee"))) ++
    "_" ++ sanitizePart (pyStr (rowGetD row "employee_id" (.str "id"))) ++ ".pdf"

/-- `payslip/services/payslip_service.py::_build_payslip_files`. -/
def _build_payslip_files (f : Frame) : List (String × PayslipDoc) :=
  f.rows.map (fun cells =>
    let row : Row := f.headers.zip cells
    (payslipFilename row, build_payslip_pdf row))

/-- `payslip/services/payslip_service.py::PayslipResult`. -/
structure PayslipResult where
  content : BatchContent
  content_type : String
  filename : String
  preview_content : PayslipDoc
  preview_filename : String

/-- The exceptions `generate_payslips` can raise: the explicit
`ValueError` for missing columns, and the `IndexError` from
`file_pairs[0]` when the frame has no data rows. -/
inductive PayslipError where
  | valueError (msg : String)
  | indexError

/-- Character-list comparison realising Python's `<=` on strings
(lexicographic by code point). -/
def charListLe : List Char → List Char → Bool
  | [], _ => true
  | _ :: _, [] => false
  | c :: cs, d :: ds => if c = d then charListLe cs ds else decide (c < d)

def strLeB (s t : String) : Bool := charListLe s.data t.data

def orderedInsertStr (s : String) : List String → List String
  | [] => [s]
  | t :: ts => if strLeB s t then s :: t :: ts else t :: orderedInsertStr s ts

/-- Python `sorted` on a list of strings. -/
def sortedStrings (l : List String) : List String :=
  l.foldr orderedInsertStr []

/-- `payslip/services/payslip_service.py::generate_payslips`, after the
spreadsheet bytes have been decoded to a `Frame` (the `pd.read_excel`
half of `parse_salary_file`). -/
def generate_payslips (f : Frame) : Except PayslipError PayslipResult :=
  let data := normalizeFrame f
  let missing := validate_columns data
  if missing = [] then
    let file_pairs := _build_payslip_files data
    match file_pairs with
    | [(filename, pdf_doc)] =>
      .ok { content := BatchContent.pdf pdf_doc
            content_type := "application/pdf"
            filename := filename
            preview_content := pdf_doc
            preview_filename := filename }
    | [] => .error PayslipError.indexError
    | first :: rest =>
      .ok { content := build_zip (first :: rest)
            content_type := "application/zip"
            filename := "payslips.zip"
            preview_content := first.2
            preview_filename := first.1 }
  else
    .error (PayslipError.valueError
      ("Missing required columns in Excel: " ++
        String.intercalate ", " (sortedStrings missing)))

/-- Names of the members of the primary artifact when it is an archive
(used to exhibit duplicate member names). -/
def zipMemberNames : Except PayslipError PayslipResult → List String
  | .ok r =>
    match r.content with
    | .zip ms => ms.map Prod.fst
    | .pdf _ => []
  | .error _ => []

theorem ones_get_some (h : ℕ) (hh : h < 20) : ∃ w, _ONES.get? h = some w :=
  ⟨_ONES.get ⟨h, by simpa [_ONES] using hh⟩, List.get?_eq_get _⟩

theorem tens_get_some (t : ℕ) (ht : t < 10) : ∃ w, _TENS.get? t = some w :=
  ⟨_TENS.get ⟨t, by simpa [_TENS] using ht⟩, List.get?_eq_get _⟩

/-- Below 2000, `_convert_hundreds` never indexes out of range: the
hundreds digit stays below 20, so `_ONES[hundreds]` is in bounds. -/
theorem convertHundreds_some (m : ℕ) (hm : m < 2000) :
    ∃ w, _convert_hundreds m = some w := by
  have hh : m / 100 < 20 := by
    rw [Nat.div_lt_iff_lt_mul (by norm_num : (0:ℕ) < 100)]; omega
  obtain ⟨a, ha⟩ : ∃ a, (if m / 100 = 0 then some [] else
      (_ONES.get? (m / 100)).map (fun w => [w ++ " Hundred"])) = some a := by
    by_cases h : m / 100 = 0
    · exact ⟨[], by rw [if_pos h]⟩
    · obtain ⟨w, hw⟩ := ones_get_some _ hh
      exact ⟨[w ++ " Hundred"], by rw [if_neg h, hw]; rfl⟩
  obtain ⟨b, hb⟩ : ∃ b, (if m % 100 = 0 then some [] else
      if m % 100 < 20 then (_ONES.get? (m % 100)).map (fun w => [w])
      else
        if m % 100 % 10 = 0 then (_TENS.get? (m % 100 / 10)).map (fun w => [w])
        else
          match _TENS.get? (m % 100 / 10), _ONES.get? (m % 100 % 10) with
          | some tw, some ow => some [tw ++ " " ++ ow]
          | _, _ => Option.none) = some b := by
    by_cases h0 : m % 100 = 0
    · exact ⟨[], by rw [if_pos h0]⟩
    · by_cases h20 : m % 100 < 20
      · obtain ⟨w, hw⟩ := ones_get_some _ h20
        exact ⟨[w], by rw [if_neg h0, if_pos h20, hw]; rfl⟩
      · have ht : m % 100 / 10 < 10 := by
          have hr : m % 100 < 100 := Nat.mod_lt _ (by norm_num)
          rw [Nat.div_lt_iff_lt_mul (by norm_num : (0:ℕ) < 10)]; omega
        obtain ⟨tw, htw⟩ := tens_get_some _ ht
        by_cases ho : m % 100 % 10 = 0
        · exact ⟨[tw], by rw [if_neg h0, if_neg h20, if_pos ho, htw]; rfl⟩
        · have hol : m % 100 % 10 < 20 := by
            have := Nat.mod_lt (m % 100) (show 0 < 10 by norm_num); omega
          obtain ⟨ow, how⟩ := ones_get_some _ hol
          exact ⟨[tw ++ " " ++ ow],
            by rw [if_neg h0, if_neg h20, if_neg ho, htw, how]⟩
  refine ⟨String.intercalate " " (a ++ b), ?_⟩
  simp only [_convert_hundreds]
  rw [ha, hb]

theorem groupPart_eq (g : ℕ) (suf : String) (hg : g < 2000) :
    groupPart g suf =
      some (if g = 0 then [] else [(_convert_hundreds g).getD "" ++ suf]) := by
  by_cases h : g = 0
  · rw [groupPart, if_pos h, if_pos h]
  · obtain ⟨w, hw⟩ := convertHundreds_some g hg
    rw [groupPart, if_neg h, if_neg h, hw]
    rfl

theorem lastPart_eq (g : ℕ) (hg : g < 2000) :
    (if g = 0 then some [] else (_convert_hundreds g).map (fun w => [w])) =
      some (if g = 0 then [] else [(_convert_hundreds g).getD ""]) := by
  by_cases h : g = 0
  · rw [if_pos h, if_pos h]
  · obtain ⟨w, hw⟩ := convertHundreds_some g hg
    rw [if_neg h, if_neg h, hw]
    rfl

/-- C1, counterexample.  The claim asserts the conversion succeeds for
every non-negative integer amount, but at 20,000,000,000 the crore group
is 2000, `_convert_hundreds(2000)` computes `hundreds = 20`, and
`_ONES[20]` raises `IndexError` (the list has 20 entries): no words are
produced at all. -/
theorem c1_counterexample : number_to_words 20000000000 = Option.none := by
  decide

/-- C1, amended.  For every non-negative integer amount below
20,000,000,000 (equivalently, with crore group below 2000),
`number_to_words` splits the amount into crores / lakhs / thousands and a
0-999 remainder, renders each nonzero group through `_convert_hundreds`
(irregular 0-19 words, tens words for 20-99), joins the groups with
single spaces, and maps 0 to `"Zero"`; in particular the five quoted
example values hold. -/
theorem c1_number_to_words :
    (∀ n : ℕ, n < 20000000000 →
      number_to_words n = some (
        if n = 0 then "Zero"
        else String.intercalate " "
          ((if n / 10000000 = 0 then []
            else [(_convert_hundreds (n / 10000000)).getD "" ++ " Crore"]) ++
           (if n / 100000 % 100 = 0 then []
            else [(_convert_hundreds (n / 100000 % 100)).getD "" ++ " Lakh"]) ++
           (if n / 1000 % 100 = 0 then []
            else [(_convert_hundreds (n / 1000 % 100)).getD "" ++ " Thousand"]) ++
           (if n % 1000 = 0 then []
            else [(_convert_hundreds (n % 1000)).getD ""])))) ∧
    number_to_words 0 = some "Zero" ∧
    number_to_words 1000 = some "One Thousand" ∧
    number_to_words 100000 = some "One Lakh" ∧
    number_to_words 10000000 = some "One Crore" ∧
    number_to_words 123456 =
      some "One Lakh Twenty Three Thousand Four Hundred Fifty Six" := by
  refine ⟨?_, by decide, by decide, by decide, by decide, by decide⟩
  intro n hn
  by_cases h0 : n = 0
  · rw [number_to_words, if_pos h0, if_pos h0]
  · have e1 : n % 10000000 % 100000 = n % 100000 :=
      Nat.mod_mod_of_dvd n (by norm_num)
    have e2 : n % 10000000 / 100000 = n / 100000 % 100 := by
      rw [show (10000000 : ℕ) = 100000 * 100 by norm_num,
        Nat.mod_mul_right_div_self]
    have e3 : n % 100000 / 1000 = n / 1000 % 100 := by
      rw [show (100000 : ℕ) = 1000 * 100 by norm_num,
        Nat.mod_mul_right_div_self]
    have e4 : n % 100000 % 1000 = n % 1000 :=
      Nat.mod_mod_of_dvd n (by norm_num)
    have hc : n / 10000000 < 2000 := by
      rw [Nat.div_lt_iff_lt_mul (by norm_num : (0:ℕ) < 10000000)]; omega
    have hl : n / 100000 % 100 < 2000 := by
      have := Nat.mod_lt (n / 100000) (show 0 < 100 by norm_num); omega
    have ht : n / 1000 % 100 < 2000 := by
      have := Nat.mod_lt (n / 1000) (show 0 < 100 by norm_num); omega
    have hh : n % 1000 < 2000 := by
      have := Nat.mod_lt n (show 0 < 1000 by norm_num); omega
    rw [number_to_words, if_neg h0, if_neg h0]
    simp only [e1, e2, e3, e4]
    rw [groupPart_eq _ _ hc, groupPart_eq _ _ hl, groupPart_eq _ _ ht,
      lastPart_eq _ hh]

/-- C1, witness: the amended theorem applied at the concrete amount
123456. -/
theorem c1_witness :
    number_to_words 123456 =
      some "One Lakh Twenty Three Thousand Four Hundred Fifty Six" := by
  rw [c1_number_to_words.1 123456 (by norm_num)]
  decide

theorem parseFloat_of_strip_blank (s : String) (h : pyStrip s = "") :
    parseFloat s = Option.none := by
  have hd : stripEnds Char.isWhitespace s.data = [] := congrArg String.data h
  rw [parseFloat, hd]
  with_unfolding_all rfl

theorem parseFloat_of_strip_dash (s : String) (h : pyStrip s = "-") :
    parseFloat s = Option.none := by
  have hd : stripEnds Char.isWhitespace s.data = ['-'] := congrArg String.data h
  rw [parseFloat, hd]
  with_unfolding_all rfl

/-- C2.  `safe_number` is total by construction (it is a Lean function
into `ℚ`; the Python `try`/`except` absorbing `TypeError`/`ValueError` is
the `Option.getD 0`).  It returns 0 for `None`, for float NaN, for
strings stripping to blank or `"-"`, and for strings `float()` rejects;
for parseable strings it returns the parsed value, and numeric inputs
pass through, with the two quoted 1234.5 examples. -/
theorem c2_safe_number :
    safe_number Value.none = 0 ∧
    safe_number Value.nan = 0 ∧
    (∀ s, pyStrip s = "" ∨ pyStrip s = "-" → safe_number (Value.str s) = 0) ∧
    (∀ s, parseFloat s = Option.none → safe_number (Value.str s) = 0) ∧
    (∀ s q, parseFloat s = some q → safe_number (Value.str s) = q) ∧
    (∀ q, safe_number (Value.float q) = q) ∧
    (∀ n : ℤ, safe_number (Value.int n) = (n : ℚ)) ∧
    safe_number (Value.str "") = 0 ∧
    safe_number (Value.str "-") = 0 ∧
    safe_number (Value.str "1234.5") = 1234.5 ∧
    safe_number (Value.float 1234.5) = 1234.5 := by
  refine ⟨rfl, rfl, ?_, ?_, ?_, fun q => rfl, fun n => rfl, by decide, by decide,
    ?_, rfl⟩
  · intro s h
    simp only [safe_number]
    rw [if_pos h]
  · intro s h
    simp only [safe_number]
    by_cases hb : pyStrip s = "" ∨ pyStrip s = "-"
    · rw [if_pos hb]
    · rw [if_neg hb, h]
      rfl
  · intro s q h
    simp only [safe_number]
    have hb : ¬ (pyStrip s = "" ∨ pyStrip s = "-") := by
      rintro (hs | hs)
      · rw [parseFloat_of_strip_blank s hs] at h
        exact Option.noConfusion h
      · rw [parseFloat_of_strip_dash s hs] at h
        exact Option.noConfusion h
    rw [if_neg hb, h]
    rfl
  · rw [show (1234.5 : ℚ) = 2469/2 by norm_num]
    with_unfolding_all rfl

/-- C2, witness: the parse conjunct applied at the concrete string
`"1234.5"` and the reject conjunct at `"xyz"`. -/
theorem c2_witness :
    safe_number (Value.str "1234.5") = 1234.5 ∧
    safe_number (Value.str "xyz") = 0 :=
  ⟨c2_safe_number.2.2.2.2.1 "1234.5" 1234.5
      (by rw [show (1234.5 : ℚ) = 2469/2 by norm_num]; with_unfolding_all rfl),
    c2_safe_number.2.2.2.1 "xyz" (by with_unfolding_all rfl)⟩


theorem chainOk_tail {c : Char} {l : List Char} (h : chainOk (c :: l) = true) :
    chainOk l = true := by
  cases l with
  | nil => rfl
  | cons d r =>
    rw [chainOk, Bool.and_eq_true] at h
    exact h.2

theorem chainOk_cons_alnum {c : Char} {l : List Char}
    (hc : isAlnumLower c = true) (hl : chainOk l = true) :
    chainOk (c :: l) = true := by
  cases l with
  | nil => rfl
  | cons d r =>
    rw [chainOk, Bool.and_eq_true]
    exact ⟨by rw [hc, Bool.true_or], hl⟩

theorem chainOk_dropWhile (p : Char → Bool) {l : List Char}
    (h : chainOk l = true) : chainOk (l.dropWhile p) = true := by
  induction l with
  | nil => exact h
  | cons c t ih =>
    rw [List.dropWhile_cons]
    by_cases hp : p c = true
    · rw [if_pos hp]
      exact ih (chainOk_tail h)
    · rw [if_neg hp]
      exact h

theorem dropWhile_cons_false {p : Char → Bool} {l : List Char} {c : Char}
    {r : List Char} (h : l.dropWhile p = c :: r) : p c = false := by
  induction l with
  | nil => exact absurd h (by simp)
  | cons a t ih =>
    rw [List.dropWhile_cons] at h
    by_cases hp : p a = true
    · rw [if_pos hp] at h
      exact ih h
    · rw [if_neg hp] at h
      cases h
      exact Bool.eq_false_iff.mpr hp

theorem mem_dropTrailing {p : Char → Bool} {a : Char} :
    ∀ {l : List Char}, a ∈ dropTrailing p l → a ∈ l := by
  intro l
  induction l with
  | nil => intro h; exact h
  | cons c t ih =>
    intro h
    rw [dropTrailing] at h
    rcases hdt : dropTrailing p t with _ | ⟨d, r⟩
    · rw [hdt] at h
      by_cases hp : p c = true
      · rw [if_pos hp] at h
        cases h
      · rw [if_neg hp] at h
        rcases List.mem_singleton.mp h with rfl
        exact List.mem_cons_self _ _
    · rw [hdt] at h
      rcases List.mem_cons.mp h with rfl | h
      · exact List.mem_cons_self _ _
      · exact List.mem_cons_of_mem _ (ih (by rw [hdt]; exact h))


theorem dropTrailing_head {p : Char → Bool} {c : Char} {l : List Char} :
    dropTrailing p (c :: l) = [] ∨ ∃ r, dropTrailing p (c :: l) = c :: r := by
  rw [dropTrailing]
  rcases hdt : dropTrailing p l with _ | ⟨d, r⟩
  · by_cases hp : p c = true
    · left; rw [if_pos hp]
    · right; exact ⟨[], by rw [if_neg hp]⟩
  · right; exact ⟨d :: r, rfl⟩

theorem chainOk_dropTrailing (p : Char → Bool) {l : List Char}
    (h : chainOk l = true) : chainOk (dropTrailing p l) = true := by
  induction l with
  | nil => exact h
  | cons c t ih =>
    rw [dropTrailing]
    rcases hdt : dropTrailing p t with _ | ⟨d, r⟩
    · by_cases hp : p c = true
      · rw [if_pos hp]; rfl
      · rw [if_neg hp]; rfl
    · have hct : chainOk (d :: r) = true := by
        rw [← hdt]; exact ih (chainOk_tail h)
      cases t with
      | nil => exact absurd hdt (by simp [dropTrailing])
      | cons e t' =>
        rcases dropTrailing_head (p := p) (c := e) (l := t') with he | ⟨r', he⟩
        · rw [he] at hdt; cases hdt
        · rw [he] at hdt
          cases hdt
          rw [chainOk, Bool.and_eq_true]
          constructor
          · rw [chainOk, Bool.and_eq_true] at h
            exact h.1
          · exact hct

theorem collapse_chars {l : List Char} :
    ∀ c ∈ collapse l, isAlnumLower c = true ∨ c = '_' := by
  induction l with
  | nil => intro c hc; cases hc
  | cons a t ih =>
    cases t with
    | nil =>
      intro c hc
      rw [collapse] at hc
      by_cases ha : isAlnumLower a = true
      · rw [if_pos ha] at hc
        rcases List.mem_singleton.mp hc with rfl
        exact Or.inl ha
      · rw [if_neg ha] at hc
        rcases List.mem_singleton.mp hc with rfl
        exact Or.inr rfl
    | cons d rest =>
      intro c hc
      rw [collapse] at hc
      by_cases ha : isAlnumLower a = true
      · rw [if_pos ha] at hc
        rcases List.mem_cons.mp hc with rfl | hc
        · exact Or.inl ha
        · exact ih c hc
      · rw [if_neg ha] at hc
        by_cases hd : isAlnumLower d = true
        · rw [if_pos hd] at hc
          rcases List.mem_cons.mp hc with rfl | hc
          · exact Or.inr rfl
          · exact ih c hc
        · rw [if_neg hd] at hc
          exact ih c hc

theorem collapse_head {d : Char} (hd : isAlnumLower d = true) (r : List Char) :
    ∃ t, collapse (d :: r) = d :: t := by
  cases r with
  | nil => exact ⟨[], by rw [collapse, if_pos hd]⟩
  | cons e r' => exact ⟨collapse (e :: r'), by rw [collapse, if_pos hd]⟩

theorem collapse_chain (l : List Char) : chainOk (collapse l) = true := by
  induction l with
  | nil => rfl
  | cons a t ih =>
    cases t with
    | nil =>
      rw [collapse]
      by_cases ha : isAlnumLower a = true
      · rw [if_pos ha]; rfl
      · rw [if_neg ha]; rfl
    | cons d rest =>
      rw [collapse]
      by_cases ha : isAlnumLower a = true
      · rw [if_pos ha]
        exact chainOk_cons_alnum ha ih
      · rw [if_neg ha]
        by_cases hd : isAlnumLower d = true
        · rw [if_pos hd]
          obtain ⟨t, ht⟩ := collapse_head hd rest
          rw [ht]
          rw [chainOk, Bool.and_eq_true]
          refine ⟨by rw [hd, Bool.or_true], ?_⟩
          rw [← ht]
          exact ih
        · rw [if_neg hd]
          exact ih

theorem collapse_fix {m : List Char}
    (hmem : ∀ c ∈ m, isAlnumLower c = true ∨ c = '_')
    (hch : chainOk m = true) : collapse m = m := by
  induction m with
  | nil => rfl
  | cons a t ih =>
    cases t with
    | nil =>
      rw [collapse]
      rcases hmem a (List.mem_cons_self _ _) with ha | rfl
      · rw [if_pos ha]
      · rw [if_neg (by decide)]
    | cons d rest =>
      have hR : isAlnumLower a = true ∨ isAlnumLower d = true := by
        rw [chainOk, Bool.and_eq_true, Bool.or_eq_true] at hch
        exact hch.1
      have htail : collapse (d :: rest) = d :: rest :=
        ih (fun c hc => hmem c (List.mem_cons_of_mem _ hc)) (chainOk_tail hch)
      rw [collapse]
      by_cases ha : isAlnumLower a = true
      · rw [if_pos ha, htail]
      · rcases hmem a (List.mem_cons_self _ _) with h | rfl
        · exact absurd h ha
        · rcases hR with h | hd
          · exact absurd h ha
          · rw [if_neg ha, if_pos hd, htail]


theorem goodChar_toNat {c : Char} (h : isAlnumLower c = true ∨ c = '_') :
    (97 ≤ c.toNat ∧ c.toNat ≤ 122) ∨ (48 ≤ c.toNat ∧ c.toNat ≤ 57) ∨ c.toNat = 95 := by
  rcases h with h | rfl
  · rw [isAlnumLower, Bool.or_eq_true, Bool.and_eq_true, Bool.and_eq_true] at h
    simp only [decide_eq_true_eq] at h
    tauto
  · right; right; rfl

theorem ne_of_toNat_ne {c d : Char} (h : c.toNat ≠ d.toNat) : c ≠ d :=
  fun e => h (congrArg Char.toNat e)

theorem toLower_fix {c : Char} (h : isAlnumLower c = true ∨ c = '_') :
    c.toLower = c := by
  have hn := goodChar_toNat h
  rw [Char.toLower, if_neg]
  omega

theorem not_whitespace {c : Char} (h : isAlnumLower c = true ∨ c = '_') :
    c.isWhitespace = false := by
  have hn := goodChar_toNat h
  have h1 : c ≠ ' ' := ne_of_toNat_ne (by change _ ≠ 32; omega)
  have h2 : c ≠ '\t' := ne_of_toNat_ne (by change _ ≠ 9; omega)
  have h3 : c ≠ '\r' := ne_of_toNat_ne (by change _ ≠ 13; omega)
  have h4 : c ≠ '\n' := ne_of_toNat_ne (by change _ ≠ 10; omega)
  rw [Char.isWhitespace]
  simp [h1, h2, h3, h4]

theorem good_ne_specials {c : Char} (h : isAlnumLower c = true ∨ c = '_') :
    c ≠ '/' ∧ c ≠ '#' ∧ c ≠ '(' ∧ c ≠ ')' := by
  have hn := goodChar_toNat h
  exact ⟨ne_of_toNat_ne (by change _ ≠ 47; omega),
    ne_of_toNat_ne (by change _ ≠ 35; omega),
    ne_of_toNat_ne (by change _ ≠ 40; omega),
    ne_of_toNat_ne (by change _ ≠ 41; omega)⟩

theorem map_eq_self {f : Char → Char} {l : List Char}
    (h : ∀ c ∈ l, f c = c) : l.map f = l :=
  (List.map_congr_left h).trans (List.map_id l)

theorem dropWhile_eq_self_of_none {p : Char → Bool} {l : List Char}
    (h : ∀ c ∈ l, p c = false) : l.dropWhile p = l := by
  cases l with
  | nil => rfl
  | cons c t =>
    rw [List.dropWhile_cons, if_neg]
    rw [h c (List.mem_cons_self _ _)]
    exact fun e => Bool.noConfusion e

theorem dropTrailing_eq_self_of_none {p : Char → Bool} {l : List Char}
    (h : ∀ c ∈ l, p c = false) : dropTrailing p l = l := by
  induction l with
  | nil => rfl
  | cons c t ih =>
    rw [dropTrailing, ih (fun x hx => h x (List.mem_cons_of_mem _ hx))]
    cases t with
    | nil =>
      rw [if_neg]
      rw [h c (List.mem_cons_self _ _)]
      exact fun e => Bool.noConfusion e
    | cons d r => rfl

theorem stripEnds_eq_self_of_none {p : Char → Bool} {l : List Char}
    (h : ∀ c ∈ l, p c = false) : stripEnds p l = l := by
  rw [stripEnds, dropWhile_eq_self_of_none h, dropTrailing_eq_self_of_none h]

theorem mem_stripEnds {p : Char → Bool} {a : Char} {l : List Char}
    (h : a ∈ stripEnds p l) : a ∈ l := by
  rw [stripEnds] at h
  exact (List.dropWhile_sublist p).mem (mem_dropTrailing h)

theorem chainOk_stripEnds (p : Char → Bool) {l : List Char}
    (h : chainOk l = true) : chainOk (stripEnds p l) = true :=
  chainOk_dropTrailing p (chainOk_dropWhile p h)

theorem dropTrailing_idem (p : Char → Bool) (l : List Char) :
    dropTrailing p (dropTrailing p l) = dropTrailing p l := by
  induction l with
  | nil => rfl
  | cons c t ih =>
    rw [dropTrailing]
    rcases hdt : dropTrailing p t with _ | ⟨d, r⟩
    · show dropTrailing p (if p c = true then [] else [c]) =
        if p c = true then [] else [c]
      by_cases hp : p c = true
      · rw [if_pos hp]
        rfl
      · rw [if_neg hp]
        exact if_neg hp
    · have hfix : dropTrailing p (d :: r) = d :: r := by
        rw [← hdt]; exact ih
      show dropTrailing p (c :: d :: r) = c :: d :: r
      rw [dropTrailing, hfix]

theorem stripEnds_idem (p : Char → Bool) (l : List Char) :
    stripEnds p (stripEnds p l) = stripEnds p l := by
  rw [stripEnds, stripEnds]
  have hdw : (dropTrailing p ((l.dropWhile p))).dropWhile p =
      dropTrailing p (l.dropWhile p) := by
    rcases hl1 : l.dropWhile p with _ | ⟨c, t⟩
    · rfl
    · have hc : p c = false := dropWhile_cons_false hl1
      rcases dropTrailing_head (p := p) (c := c) (l := t) with he | ⟨r, he⟩
      · rw [he]; rfl
      · rw [he, List.dropWhile_cons, if_neg]
        rw [hc]
        exact fun e => Bool.noConfusion e
  rw [hdw, dropTrailing_idem]


theorem nn_chars (s : String) :
    ∀ c ∈ (_normalize_name s).data, isAlnumLower c = true ∨ c = '_' :=
  fun c hc => collapse_chars _ (mem_stripEnds hc)

theorem nn_chain (s : String) : chainOk (_normalize_name s).data = true :=
  chainOk_stripEnds _ (collapse_chain _)

theorem nn_idempotent (s : String) :
    _normalize_name (_normalize_name s) = _normalize_name s := by
  set t := _normalize_name s with ht
  have hg : ∀ c ∈ t.data, isAlnumLower c = true ∨ c = '_' := nn_chars s
  have h0 : stripEnds Char.isWhitespace t.data = t.data :=
    stripEnds_eq_self_of_none (fun c hc => not_whitespace (hg c hc))
  have h1 : t.data.map Char.toLower = t.data :=
    map_eq_self (fun c hc => toLower_fix (hg c hc))
  have h2 : t.data.map (fun c => if c = '/' then ' ' else c) = t.data :=
    map_eq_self (fun c hc => if_neg (good_ne_specials (hg c hc)).1)
  have h3 : t.data.map (fun c => if c = '#' then ' ' else c) = t.data :=
    map_eq_self (fun c hc => if_neg (good_ne_specials (hg c hc)).2.1)
  have h4 : t.data.map (fun c => if c = '(' ∨ c = ')' then ' ' else c) = t.data :=
    map_eq_self (fun c hc => if_neg (by
      rintro (e | e)
      · exact (good_ne_specials (hg c hc)).2.2.1 e
      · exact (good_ne_specials (hg c hc)).2.2.2 e))
  have h5 : collapse t.data = t.data := collapse_fix hg (nn_chain s)
  have h6 : stripEnds (fun c => c = '_') t.data = t.data :=
    stripEnds_idem _ (collapse
      ((((stripEnds Char.isWhitespace s.data).map Char.toLower).map
          (fun c => if c = '/' then ' ' else c)).map
          (fun c => if c = '#' then ' ' else c) |>.map
          (fun c => if c = '(' ∨ c = ')' then ' ' else c)))
  show String.mk (stripEnds (fun c => c = '_') (collapse
      ((((stripEnds Char.isWhitespace t.data).map Char.toLower).map
          (fun c => if c = '/' then ' ' else c)).map
          (fun c => if c = '#' then ' ' else c) |>.map
          (fun c => if c = '(' ∨ c = ')' then ' ' else c)))) = t
  rw [h0, h1, h2, h3, h4, h5, h6]

theorem assocFind_mem {l : List (String × String)} {key v : String}
    (h : assocFind l key = some v) : (key, v) ∈ l := by
  induction l with
  | nil => exact absurd h (by rw [assocFind]; exact fun e => Option.noConfusion e)
  | cons p rest ih =>
    obtain ⟨k, v'⟩ := p
    rw [assocFind] at h
    by_cases hk : k = key
    · rw [if_pos hk] at h
      cases h
      cases hk
      exact List.mem_cons_self _ _
    · rw [if_neg hk] at h
      exact List.mem_cons_of_mem _ (ih h)

theorem alias_map_range :
    (ALIAS_MAP.all (fun p => resolveHeader p.2 == p.2)) = true := by decide

theorem resolveHeader_idem (h : String) :
    resolveHeader (resolveHeader h) = resolveHeader h := by
  rcases e : aliasLookup (_normalize_name h) with _ | c
  · have h1 : resolveHeader h = _normalize_name h := by
      simp only [resolveHeader]
      rw [e]
      rfl
    rw [h1]
    simp only [resolveHeader]
    rw [nn_idempotent, e]
    rfl
  · have h1 : resolveHeader h = c := by
      simp only [resolveHeader]
      rw [e]
      rfl
    have hmem : (_normalize_name h, c) ∈ ALIAS_MAP :=
      List.mem_reverse.mp (assocFind_mem e)
    have hall := List.all_eq_true.mp alias_map_range _ hmem
    rw [h1]
    exact eq_of_beq hall

set_option maxHeartbeats 1000000 in
/-- Soundness of the alias table: for every entry, the normalized
canonical name and every normalized alias look up to exactly that
canonical name in `ALIAS_MAP`. -/
theorem aliasTable_sound :
    (COLUMN_ALIASES.all (fun p =>
      aliasLookup (_normalize_name p.1) == some p.1 &&
        p.2.all (fun a => aliasLookup (_normalize_name a) == some p.1))) = true := by
  decide

set_option maxHeartbeats 1000000 in
/-- Disjointness of the alias table: the normalized key sets of any two
entries with distinct canonical names share no key. -/
theorem alias_disjoint :
    (COLUMN_ALIASES.all (fun p => COLUMN_ALIASES.all (fun q =>
      p.1 == q.1 ||
        (keyList p).all (fun k => decide (k ∉ keyList q))))) = true := by
  decide

/-- C4.  Column normalization: `normalize_columns` is the per-header map
`resolveHeader` applied positionwise (so column order and count are
preserved); a header whose normalized key is in the reverse alias index
resolves to the indexed canonical name and otherwise passes through as
its own normalized form; every canonical name and every documented alias
of it resolves to that canonical name; and the three quoted example
headers all resolve to `employee_id`. -/
theorem c4_normalize_columns :
    (∀ cols : List String, (normalize_columns cols).length = cols.length ∧
      ∀ i : ℕ, (normalize_columns cols).get? i = (cols.get? i).map resolveHeader) ∧
    (∀ h c, aliasLookup (_normalize_name h) = some c → resolveHeader h = c) ∧
    (∀ h, aliasLookup (_normalize_name h) = Option.none →
      resolveHeader h = _normalize_name h) ∧
    (∀ p ∈ COLUMN_ALIASES, resolveHeader p.1 = p.1 ∧
      ∀ a ∈ p.2, resolveHeader a = p.1) ∧
    resolveHeader "Emp Code" = "employee_id" ∧
    resolveHeader "EMPLOYEE_ID" = "employee_id" ∧
    resolveHeader "employee no" = "employee_id" := by
  refine ⟨?_, ?_, ?_, ?_, by decide, by decide, by decide⟩
  · intro cols
    exact ⟨by rw [normalize_columns, List.length_map],
      fun i => by rw [normalize_columns, List.get?_map]⟩
  · intro h c e
    simp only [resolveHeader]
    rw [e]
    rfl
  · intro h e
    simp only [resolveHeader]
    rw [e]
    rfl
  · intro p hp
    have hall := List.all_eq_true.mp aliasTable_sound p hp
    rw [Bool.and_eq_true] at hall
    refine ⟨?_, ?_⟩
    · have h1 := eq_of_beq hall.1
      simp only [resolveHeader]
      rw [h1]
      rfl
    · intro a ha
      have h2 := eq_of_beq (List.all_eq_true.mp hall.2 a ha)
      simp only [resolveHeader]
      rw [h2]
      rfl

/-- C4, witness: the shape part applied at the concrete header list
`["Emp Code", "Month"]`, evaluating position 0 to `employee_id`. -/
theorem c4_witness :
    (normalize_columns ["Emp Code", "Month"]).length = 2 ∧
    (normalize_columns ["Emp Code", "Month"]).get? 0 = some "employee_id" := by
  obtain ⟨hlen, hget⟩ := c4_normalize_columns.1 ["Emp Code", "Month"]
  refine ⟨by rw [hlen]; rfl, ?_⟩
  rw [hget 0]
  decide

/-- C7.  Normalization is idempotent: a header list of canonical field
names is returned unchanged in the same order, and more generally
`normalize_columns` applied to its own output is the identity. -/
theorem c7_normalize_idempotent :
    (∀ cols : List String, (∀ c ∈ cols, c ∈ COLUMN_ALIASES.map Prod.fst) →
      normalize_columns cols = cols) ∧
    (∀ cols : List String,
      normalize_columns (normalize_columns cols) = normalize_columns cols) := by
  constructor
  · intro cols hc
    rw [normalize_columns]
    refine (List.map_congr_left ?_).trans (List.map_id cols)
    intro c hmem
    obtain ⟨p, hp, hpe⟩ := List.mem_map.mp (hc c hmem)
    have hall := List.all_eq_true.mp aliasTable_sound p hp
    rw [Bool.and_eq_true] at hall
    have h1 := eq_of_beq hall.1
    subst hpe
    simp only [resolveHeader]
    rw [h1]
    rfl
  · intro cols
    show (cols.map resolveHeader).map resolveHeader = cols.map resolveHeader
    rw [List.map_map]
    refine List.map_congr_left ?_
    intro a _
    rw [Function.comp_apply]
    exact resolveHeader_idem a

set_option maxHeartbeats 1000000 in
/-- C7, witness: the canonical-headers part applied at the concrete
canonical header list of the Required Field Set. -/
theorem c7_witness :
    normalize_columns ["employee_name", "employee_id", "month"] =
      ["employee_name", "employee_id", "month"] :=
  c7_normalize_idempotent.1 _ (by decide)

/-- C9.  The static alias table's invariant: every canonical name is
reachable in the reverse index from its own normalized form and from
every listed alias, and the normalized key sets of entries with distinct
canonical names are disjoint, so a normalized header key resolves to at
most one canonical name. -/
theorem c9_alias_invariant :
    (∀ p ∈ COLUMN_ALIASES,
      aliasLookup (_normalize_name p.1) = some p.1 ∧
      ∀ a ∈ p.2, aliasLookup (_normalize_name a) = some p.1) ∧
    (∀ p ∈ COLUMN_ALIASES, ∀ q ∈ COLUMN_ALIASES, p.1 ≠ q.1 →
      ∀ k ∈ keyList p, k ∉ keyList q) := by
  constructor
  · intro p hp
    have hall := List.all_eq_true.mp aliasTable_sound p hp
    rw [Bool.and_eq_true] at hall
    exact ⟨eq_of_beq hall.1,
      fun a ha => eq_of_beq (List.all_eq_true.mp hall.2 a ha)⟩
  · intro p hp q hq hne k hk
    have hall := List.all_eq_true.mp
      (List.all_eq_true.mp alias_disjoint p hp) q hq
    rw [Bool.or_eq_true] at hall
    rcases hall with h | h
    · exact absurd (eq_of_beq h) hne
    · exact of_decide_eq_true (List.all_eq_true.mp h k hk)

/-- C9, witness: the reachability part applied at the first table entry
(`employee_id`). -/
theorem c9_witness :
    aliasLookup (_normalize_name "employee_id") = some "employee_id" :=
  (c9_alias_invariant.1 _ (List.mem_cons_self _ _)).1


/-- C3.  The renderer's totals follow the explicit-if-nonzero-else-derive
fallback: `gross_salary` is the row's explicit cell whenever its
`safe_number` is nonzero (regardless of the earnings columns) and the sum
of `safe_number` over the fixed earnings columns when it is 0 or absent;
`total_deductions` analogously over the fixed deduction columns; and
`net_total` is the explicit `net_payable` if nonzero, else gross minus
deductions. -/
theorem c3_totals (row : Row) :
    (safe_number (rowGet row "gross_salary") ≠ 0 →
      (build_payslip_pdf row).gross_salary =
        safe_number (rowGet row "gross_salary")) ∧
    (safe_number (rowGet row "gross_salary") = 0 →
      (build_payslip_pdf row).gross_salary =
        (EARNING_COLUMNS.map (fun c => safe_number (rowGet row c))).sum) ∧
    (safe_number (rowGet row "total_deductions") ≠ 0 →
      (build_payslip_pdf row).total_deductions =
        safe_number (rowGet row "total_deductions")) ∧
    (safe_number (rowGet row "total_deductions") = 0 →
      (build_payslip_pdf row).total_deductions =
        (DEDUCTION_COLUMNS.map (fun c => safe_number (rowGet row c))).sum) ∧
    (safe_number (rowGet row "net_payable") ≠ 0 →
      (build_payslip_pdf row).net_total =
        safe_number (rowGet row "net_payable")) ∧
    (safe_number (rowGet row "net_payable") = 0 →
      (build_payslip_pdf row).net_total =
        (build_payslip_pdf row).gross_salary -
          (build_payslip_pdf row).total_deductions) := by
  refine ⟨?_, ?_, ?_, ?_, ?_, ?_⟩
  · intro h
    show gross_salary row = _
    simp only [gross_salary]
    rw [if_pos h]
  · intro h
    show gross_salary row = _
    simp only [gross_salary]
    rw [if_neg (fun hne => hne h)]
    rfl
  · intro h
    show total_deductions row = _
    simp only [total_deductions]
    rw [if_pos h]
  · intro h
    show total_deductions row = _
    simp only [total_deductions]
    rw [if_neg (fun hne => hne h)]
    rfl
  · intro h
    show net_total row = _
    simp only [net_total]
    rw [if_pos h]
  · intro h
    show net_total row = _
    simp only [net_total]
    rw [if_neg (fun hne => hne h)]
    rfl

/-- C3, witness: the explicit-gross branch applied at a concrete row with
`gross_salary = 100`. -/
theorem c3_witness :
    (build_payslip_pdf [("gross_salary", Value.int 100)]).gross_salary = 100 := by
  have he : safe_number (rowGet [("gross_salary", Value.int 100)] "gross_salary")
      = 100 := by
    with_unfolding_all rfl
  rw [(c3_totals _).1 (by rw [he]; norm_num), he]

/-- C8.  `pick_value` is an ordered short-circuit scan: the skip test
holds exactly on `None`, NaN and blank-stripping strings; the scan
returns the value at the first non-skipped candidate key, and `None` when
every candidate is skipped; and the renderer resolves the
effective-work-days field with the candidate order `effective_work_days`,
`present_days`, `pay_days`, `total_working_days`. -/
theorem c8_pick_value :
    (∀ v, pickSkip v = true ↔
      v = Value.none ∨ v = Value.nan ∨ ∃ s, v = Value.str s ∧ pyStrip s = "") ∧
    (∀ (row : Row) (ks1 : List String) k ks2,
      (∀ k' ∈ ks1, pickSkip (rowGet row k') = true) →
      pickSkip (rowGet row k) = false →
      pick_value row (ks1 ++ k :: ks2) = rowGet row k) ∧
    (∀ (row : Row) (ks : List String),
      (∀ k' ∈ ks, pickSkip (rowGet row k') = true) →
      pick_value row ks = Value.none) ∧
    (∀ row : Row, (build_payslip_pdf row).effective_work_days =
      pick_value row
        ["effective_work_days", "present_days", "pay_days", "total_working_days"]) := by
  refine ⟨?_, ?_, ?_, fun row => rfl⟩
  · intro v
    cases v <;> simp [pickSkip]
  · intro row ks1
    induction ks1 with
    | nil =>
      intro k ks2 _ hk
      rw [List.nil_append]
      simp only [pick_value]
      rw [if_neg (by rw [hk]; exact fun e => Bool.noConfusion e)]
    | cons a t ih =>
      intro k ks2 hall hk
      rw [List.cons_append]
      simp only [pick_value]
      rw [if_pos (hall a (List.mem_cons_self _ _))]
      exact ih k ks2 (fun k' h' => hall k' (List.mem_cons_of_mem _ h')) hk
  · intro row ks
    induction ks with
    | nil => intro _; rfl
    | cons a t ih =>
      intro hall
      simp only [pick_value]
      rw [if_pos (hall a (List.mem_cons_self _ _))]
      exact ih (fun k' h' => hall k' (List.mem_cons_of_mem _ h'))

/-- C8, witness: the first-qualifying-key part applied at a concrete row
where only `present_days` is populated. -/
theorem c8_witness :
    pick_value [("present_days", Value.int 20)]
      ["effective_work_days", "present_days", "pay_days", "total_working_days"] =
      Value.int 20 := by
  have h := c8_pick_value.2.1 [("present_days", Value.int 20)]
    ["effective_work_days"] "present_days" ["pay_days", "total_working_days"]
    (by decide) (by decide)
  have e : (["effective_work_days"] ++
      ["present_days", "pay_days", "total_working_days"] : List String) =
      ["effective_work_days", "present_days", "pay_days", "total_working_days"] := rfl
  rw [e] at h
  rw [h]
  decide


/-- Every sublist of the Required Field Set comes out of `sortedStrings`
in non-decreasing code-point order (finite check over all 8 sublists). -/
theorem sorted_check :
    (REQUIRED_COLUMNS.sublists.all (fun l =>
      decide (List.Pairwise (fun a b => strLeB a b = true) (sortedStrings l)))) = true := by
  decide

/-- C6.  Required-column validation: membership in `validate_columns` is
exactly Required Field Set minus the present columns; the result is empty
iff all three required fields are present; a non-empty result makes
`generate_payslips` stop with the single `ValueError` whose message
comma-joins the sorted missing names (the error branch carries no
documents, so nothing is partially processed); the displayed list is
sorted; and a frame carrying the three fields under aliases only
validates cleanly. -/
theorem c6_validation :
    (∀ (f : Frame) (c : String),
      c ∈ validate_columns f ↔ c ∈ REQUIRED_COLUMNS ∧ c ∉ f.headers) ∧
    (∀ f : Frame, validate_columns f = [] ↔ ∀ c ∈ REQUIRED_COLUMNS, c ∈ f.headers) ∧
    (∀ f : Frame, validate_columns (normalizeFrame f) ≠ [] →
      generate_payslips f = Except.error (PayslipError.valueError
        ("Missing required columns in Excel: " ++
          String.intercalate ", "
            (sortedStrings (validate_columns (normalizeFrame f)))))) ∧
    (∀ f : Frame, List.Pairwise (fun a b => strLeB a b = true)
      (sortedStrings (validate_columns f))) ∧
    validate_columns (normalizeFrame
      ⟨["Emp Code", "Employee Name", "Payslip For The Month Of"], []⟩) = [] := by
  refine ⟨?_, ?_, ?_, ?_, by decide⟩
  · intro f c
    simp only [validate_columns, List.mem_filter, decide_eq_true_eq,
      List.contains, List.elem_iff]
  · intro f
    simp only [validate_columns, List.filter_eq_nil_iff, decide_eq_true_eq,
      not_not, List.contains, List.elem_iff]
  · intro f hne
    simp only [generate_payslips]
    rw [if_neg hne]
  · intro f
    have hsub : List.Sublist (validate_columns f) REQUIRED_COLUMNS :=
      List.filter_sublist _
    exact of_decide_eq_true (List.all_eq_true.mp sorted_check _
      (List.mem_sublists.mpr hsub))

/-- C6, witness: the hard-stop part applied at a concrete frame missing
all three required columns. -/
theorem c6_witness :
    generate_payslips ⟨["foo"], [[Value.str "x"]]⟩ =
      Except.error (PayslipError.valueError
        "Missing required columns in Excel: employee_id, employee_name, month") := by
  have h := c6_validation.2.2.1 ⟨["foo"], [[Value.str "x"]]⟩ (by decide)
  rw [h]
  have e : sortedStrings (validate_columns (normalizeFrame
      (⟨["foo"], [[Value.str "x"]]⟩ : Frame))) =
      ["employee_id", "employee_name", "month"] := by decide
  rw [e]
  rfl

/-- C10.  A frame whose headers pass validation but which has no data
rows produces no result: the file-pair list is empty, the single-file
branch is skipped, and `file_pairs[0]` raises `IndexError` instead of
returning an empty archive or a schema error. -/
theorem c10_empty_rows (f : Frame)
    (hv : validate_columns (normalizeFrame f) = []) (hr : f.rows = []) :
    generate_payslips f = Except.error PayslipError.indexError := by
  simp only [generate_payslips]
  rw [if_pos hv]
  have hf : _build_payslip_files (normalizeFrame f) = [] := by
    simp only [_build_payslip_files, normalizeFrame]
    rw [hr]
    rfl
  rw [hf]

/-- C10, witness: the theorem applied at a concrete headers-only frame. -/
theorem c10_witness :
    generate_payslips ⟨["employee_name", "employee_id", "month"], []⟩ =
      Except.error PayslipError.indexError :=
  c10_empty_rows _ (by decide) rfl


/-- C5, counterexample.  A validated two-row batch whose rows share the
employee name and id yields an archive whose two members are both called
`payslip_A_1.pdf`: one member per row, but the filenames are not unique,
contradicting the claim's uniqueness assertion. -/
theorem c5_counterexample :
    zipMemberNames (generate_payslips ⟨["employee_name", "employee_id", "month"],
      [[Value.str "A", Value.str "1", Value.str "Jan"],
       [Value.str "A", Value.str "1", Value.str "Jan"]]⟩) =
      ["payslip_A_1.pdf", "payslip_A_1.pdf"] ∧
    ¬ (zipMemberNames (generate_payslips ⟨["employee_name", "employee_id", "month"],
      [[Value.str "A", Value.str "1", Value.str "Jan"],
       [Value.str "A", Value.str "1", Value.str "Jan"]]⟩)).Nodup :=
  ⟨by decide, by decide⟩

/-- C5, amended.  For a validated frame: exactly one row yields that
row's document as both primary artifact (content-type `application/pdf`)
and preview with identical bytes; two or more rows yield a zip archive as
primary and the first row's document as preview, the archive holding
exactly one member per row whose name is `payslip_<name>_<id>.pdf` from
the sanitized employee fields — without any uniqueness guarantee for the
member names. -/
theorem c5_batch (f : Frame)
    (hv : validate_columns (normalizeFrame f) = []) :
    (f.rows.length = 1 →
      ∃ p : String × PayslipDoc,
        _build_payslip_files (normalizeFrame f) = [p] ∧
        generate_payslips f = Except.ok
          { content := BatchContent.pdf p.2
            content_type := "application/pdf"
            filename := p.1
            preview_content := p.2
            preview_filename := p.1 }) ∧
    (2 ≤ f.rows.length →
      ∃ p ps, _build_payslip_files (normalizeFrame f) = p :: ps ∧ ps ≠ [] ∧
        generate_payslips f = Except.ok
          { content := BatchContent.zip (p :: ps)
            content_type := "application/zip"
            filename := "payslips.zip"
            preview_content := p.2
            preview_filename := p.1 }) ∧
    (_build_payslip_files (normalizeFrame f)).length = f.rows.length ∧
    (_build_payslip_files (normalizeFrame f)).map Prod.fst =
      f.rows.map (fun cells =>
        payslipFilename ((normalizeFrame f).headers.zip cells)) := by
  have hlen : (_build_payslip_files (normalizeFrame f)).length = f.rows.length := by
    simp only [_build_payslip_files, normalizeFrame, List.length_map]
  refine ⟨?_, ?_, hlen, ?_⟩
  · intro h1
    rcases hf : _build_payslip_files (normalizeFrame f) with _ | ⟨p, ps⟩
    · rw [hf] at hlen
      rw [h1] at hlen
      exact absurd hlen.symm (by norm_num)
    · cases ps with
      | nil =>
        refine ⟨p, rfl, ?_⟩
        obtain ⟨name, doc⟩ := p
        simp only [generate_payslips]
        rw [if_pos hv, hf]
      | cons q rs =>
        rw [hf, h1] at hlen
        exact absurd hlen (by simp)
  · intro h2
    rcases hf : _build_payslip_files (normalizeFrame f) with _ | ⟨p, ps⟩
    · rw [hf] at hlen
      rw [← hlen] at h2
      exact absurd h2 (by norm_num)
    · cases ps with
      | nil =>
        rw [hf] at hlen
        rw [← hlen] at h2
        exact absurd h2 (by norm_num)
      | cons q rs =>
        refine ⟨p, q :: rs, rfl, fun e => List.noConfusion e, ?_⟩
        simp only [generate_payslips]
        rw [if_pos hv, hf]
        rfl
  · simp only [_build_payslip_files, normalizeFrame, List.map_map]
    rfl

/-- C5, witness: the single-row branch applied at a concrete one-row
frame. -/
theorem c5_witness :
    ∃ p : String × PayslipDoc,
      _build_payslip_files (normalizeFrame
        ⟨["employee_name", "employee_id", "month"],
         [[Value.str "A", Value.str "1", Value.str "Jan"]]⟩) = [p] ∧
      generate_payslips ⟨["employee_name", "employee_id", "month"],
         [[Value.str "A", Value.str "1", Value.str "Jan"]]⟩ = Except.ok
        { content := BatchContent.pdf p.2
          content_type := "application/pdf"
          filename := p.1
          preview_content := p.2
          preview_filename := p.1 } :=
  (c5_batch _ (by decide)).1 rfl

end AveonHR
